import Mathlib

/-!
Shallow embedding of `src/examples/complex/syncing_changes.py` (`TableUpdater`):
change detection and synchronization between a source table and a target table.
Rows are keyed by an integer object id (the `OID@` cursor field) and carry a
geometry payload (`SHAPE@`), a last-edited timestamp (`EDITED@`, modelled as a
natural number since only its order is ever used) and the remaining attribute
values.  Timestamp values stand for `datetime` instants under their usual
linear order.
-/

namespace SyncingChanges

/-- A table row: the first three cursor fields `OID@`, `SHAPE@`, `EDITED@`
followed by the remaining attribute fields.  Geometry and attribute values are
abstract payloads (naturals here): the updater only compares ids and orders
timestamps, and copies everything else opaquely. -/
structure Row where
  oid : Nat
  shape : Nat
  edited : Nat
  attrs : List Nat
deriving DecidableEq

/-- A dataset: the rows a `SearchCursor` over the table yields, in order. -/
abbrev Table := List Row

/-- The `Changes` dataclass (lines 25-29). -/
structure Changes where
  updates : List Nat
  inserts : List Nat
  deletes : List Nat
deriving DecidableEq

/-- One step of Python dict construction: `d[k] = v` keeps the insertion
position of an existing key and overwrites its value, otherwise appends the
new pair. -/
def dictInsert (d : List (Nat × Nat)) (k v : Nat) : List (Nat × Nat) :=
  if d.any (fun p => p.1 == k) then
    d.map (fun p => if p.1 == k then (k, v) else p)
  else
    d ++ [(k, v)]

/-- The Python dict `{k: v for (k, v) in l}` as an association list with
insertion-ordered, duplicate-free keys (later occurrences of a key overwrite
the stored value). -/
def toDict (l : List (Nat × Nat)) : List (Nat × Nat) :=
  l.foldl (fun d p => dictInsert d p.1 p.2) []

/-- The keys of a dict, in insertion order. -/
def dictKeys (d : List (Nat × Nat)) : List Nat := d.map Prod.fst

/-- `TableUpdater._gather_rows` (lines 80-89): scan the table with the field
projection `['OID@', 'EDITED@']` and build the oid-to-timestamp dict. -/
def gather_rows (table : Table) : List (Nat × Nat) :=
  toDict (table.map (fun r => (r.oid, r.edited)))

/-- `TableUpdater._get_table_diff` (lines 91-103) applied to the two gathered
snapshots: `new_rows` is the source state, `old_rows` the target state.
`updates` embeds `[oid for oid in new_rows if oid in old_rows and
old_rows[oid] < new_rows[oid]]`; on a dict both lookups are defined whenever
the membership guard holds.  `inserts` and `deletes` embed the Python key-set
differences `new_rows.keys() - old_rows.keys()` and
`old_rows.keys() - new_rows.keys()` (unordered sets in Python, rendered here
in key order). -/
def get_table_diff (new_rows old_rows : List (Nat × Nat)) : Changes :=
  { updates := (dictKeys new_rows).filter (fun oid =>
      decide (oid ∈ dictKeys old_rows) &&
        match old_rows.lookup oid, new_rows.lookup oid with
        | some o, some n => decide (o < n)
        | _, _ => false)
    inserts := (dictKeys new_rows).filter (fun oid => decide (oid ∉ dictKeys old_rows))
    deletes := (dictKeys old_rows).filter (fun oid => decide (oid ∉ dictKeys new_rows)) }

/-- The diff of two datasets: `_get_table_diff` reading `target_state` as
`old_rows` and `source_state` as `new_rows` (lines 97-98). -/
def table_diff_of (source target : Table) : Changes :=
  get_table_diff (gather_rows source) (gather_rows target)

/-- The mutable `TableUpdater` state the claims are about: the two bound
tables and the memoized diff `self._table_diff` (`none` is the not-computed
state written at line 64). -/
structure SyncState where
  source : Table
  target : Table
  memo : Option Changes
deriving DecidableEq

/-- The `table_diff` property (lines 74-78).  The guard `not self._table_diff`
is true exactly on `None`: a `Changes` dataclass instance defines neither
`__bool__` nor `__len__`, so it is truthy even when its three lists are all
empty. -/
def table_diff (s : SyncState) : Changes × SyncState :=
  match s.memo with
  | none =>
      let c := table_diff_of s.source s.target
      (c, { s with memo := some c })
  | some c => (c, s)

/-- The shape of a where-clause the updater builds: a single-id equality
(`"<oid_field> = <id>"`) or a set-membership list (`"<oid_field> IN (...)"`).
The comma-joined id list of the `IN` form is kept as the list itself. -/
inductive WhereClause where
  | eqId : Nat → WhereClause
  | inIds : List Nat → WhereClause
deriving DecidableEq

/-- Modelled from the spec: the evaluation of the filter string is done by the
external storage provider (`arcpy`), which is not part of this repository;
per the spec a single-id clause selects rows by id equality and a multi-id
clause by set membership. -/
def WhereClause.selects : WhereClause → Nat → Bool
  | .eqId x, oid => decide (oid = x)
  | .inIds xs, oid => decide (oid ∈ xs)

/-- The clause construction shared by all four sites (lines 109-112, 119-122,
145-149, 158-162): one id gives the equality form (the extra parentheses of
line 120 do not change the predicate), otherwise the `IN` form over the
comma-joined ids. -/
def mkWhere (ids : List Nat) : WhereClause :=
  if ids.length == 1 then WhereClause.eqId (ids.headD 0) else WhereClause.inIds ids

/-- `TableUpdater._updates` (lines 116-127): when the diff has updates, read
the matching source rows keyed by their oid (`row[0]` under the `['OID@', ...]`
projection); otherwise fall through to `None`.  Reading `self.table_diff`
memoizes it as a side effect. -/
def sel_updates (s : SyncState) : Option (List (Nat × Row)) × SyncState :=
  let c := (table_diff s).1
  let s1 := (table_diff s).2
  if c.updates.isEmpty then (none, s1)
  else
    let wc := mkWhere c.updates
    (some ((s1.source.filter (fun r => wc.selects r.oid)).map (fun r => (r.oid, r))), s1)

/-- `TableUpdater._inserts` (lines 106-114): when the diff has inserts, read
the matching source rows; otherwise fall through to `None`. -/
def sel_inserts (s : SyncState) : Option (List Row) × SyncState :=
  let c := (table_diff s).1
  let s1 := (table_diff s).2
  if c.inserts.isEmpty then (none, s1)
  else (some (s1.source.filter (fun r => (mkWhere c.inserts).selects r.oid)), s1)

/-- `TableUpdater._deletes` (lines 129-130): `self.table_diff.deletes or None`
maps the empty list to `None`. -/
def sel_deletes (s : SyncState) : Option (List Nat) × SyncState :=
  let c := (table_diff s).1
  let s1 := (table_diff s).2
  if c.deletes.isEmpty then (none, s1) else (some c.deletes, s1)

/-- A single write operation issued against the target, recorded with the oid
it touches. -/
inductive Op where
  | upd : Nat → Op
  | ins : Nat → Op
  | del : Nat → Op
deriving DecidableEq

def Op.isUpd : Op → Bool
  | .upd _ => true
  | _ => false

def Op.isIns : Op → Bool
  | .ins _ => true
  | _ => false

def Op.isDel : Op → Bool
  | .del _ => true
  | _ => false

/-- The dictionary `apply_changes` returns (lines 138-142): the oid lists
recorded under the keys `'updates'`, `'inserts'` and `'deletes'`. -/
structure ApplyResult where
  updates : List Nat
  inserts : List Nat
  deletes : List Nat
deriving DecidableEq

/-- Failure injection for the three write phases of `apply_changes`: per the
spec's failure semantics each underlying batch operation fails its whole
phase atomically, so a phase either runs in full or raises before writing. -/
structure FailSpec where
  failUpdates : Bool
  failInserts : Bool
  failDeletes : Bool
deriving DecidableEq

/-- The outcome of a phase (or of `apply_changes` as a whole): a raised
exception carries the object state at the moment it propagates. -/
abbrev PhaseResult := Except SyncState (SyncState × List Nat × List Op)

/-- The object state after an `apply_changes` outcome, whether it returned or
raised. -/
def stateAfter {α : Type} : Except SyncState (SyncState × α) → SyncState
  | .error sE => sE
  | .ok (s1, _) => s1

/-- The update phase of `apply_changes` (lines 144-151): skipped when
`self._updates()` is falsy (`None` or an empty dict); otherwise the
`UpdateCursor` on the target rewrites each row selected by the clause over
the update keys with the source row of the same oid (the dict lookup
`updates[oid]` succeeds because the clause restricts to the dict's keys), and
`changes['updates']` records the oids the cursor walked. -/
def update_phase (fail : Bool) (s : SyncState) : PhaseResult :=
  let u := (sel_updates s).1
  let s1 := (sel_updates s).2
  match u with
  | none => .ok (s1, [], [])
  | some l =>
    if l.isEmpty then .ok (s1, [], [])
    else if fail then .error s1
    else
      let wc := mkWhere (l.map Prod.fst)
      let matched := s1.target.filter (fun r => wc.selects r.oid)
      let newTarget := s1.target.map
        (fun r => if wc.selects r.oid then ((l.lookup r.oid).getD r) else r)
      .ok ({ s1 with target := newTarget }, matched.map Row.oid,
           matched.map (fun r => Op.upd r.oid))

/-- The insert phase of `apply_changes` (lines 153-155): skipped when
`self._inserts()` is falsy; otherwise the `InsertCursor` appends each
gathered source row to the target, and `changes['inserts']` records the oid
`insertRow` reports for each new row (the embedding has the target keep the
provided `OID@` value). -/
def insert_phase (fail : Bool) (s : SyncState) : PhaseResult :=
  let i := (sel_inserts s).1
  let s1 := (sel_inserts s).2
  match i with
  | none => .ok (s1, [], [])
  | some rows =>
    if rows.isEmpty then .ok (s1, [], [])
    else if fail then .error s1
    else
      .ok ({ s1 with target := s1.target ++ rows }, rows.map Row.oid,
           rows.map (fun r => Op.ins r.oid))

/-- The delete phase of `apply_changes` (lines 157-164): skipped when
`self._deletes()` is `None`; otherwise the `UpdateCursor` over the clause on
the delete ids removes each selected row, and `changes['deletes']` records
the walked oids. -/
def delete_phase (fail : Bool) (s : SyncState) : PhaseResult :=
  let d := (sel_deletes s).1
  let s1 := (sel_deletes s).2
  match d with
  | none => .ok (s1, [], [])
  | some ids =>
    if fail then .error s1
    else
      let wc := mkWhere ids
      let matched := s1.target.filter (fun r => wc.selects r.oid)
      .ok ({ s1 with target := s1.target.filter (fun r => !(wc.selects r.oid)) },
           matched.map Row.oid, matched.map (fun r => Op.del r.oid))

/-- `TableUpdater.apply_changes` (lines 132-168): the update phase, then the
insert phase, then the delete phase, each writing to the target under the
edit session; line 167 sets `self._table_diff = None`, and is reached only
when no phase raised.  Alongside the returned per-phase oid lists the
embedding emits the trace of write operations in execution order. -/
def apply_changes (fail : FailSpec) (s : SyncState) :
    Except SyncState (SyncState × ApplyResult × List Op) :=
  match update_phase fail.failUpdates s with
  | .error sE => .error sE
  | .ok (s1, updRes, ops1) =>
    match insert_phase fail.failInserts s1 with
    | .error sE => .error sE
    | .ok (s2, insRes, ops2) =>
      match delete_phase fail.failDeletes s2 with
      | .error sE => .error sE
      | .ok (s3, delRes, ops3) =>
        .ok ({ s3 with memo := none },
             { updates := updRes, inserts := insRes, deletes := delRes },
             ops1 ++ ops2 ++ ops3)

/-- The existence guard of `TableUpdater.__init__` (line 36):
`if not Exists(source_table) and Exists(target_table): raise ValueError(...)`.
By Python operator precedence this parses as
`(not Exists(source_table)) and Exists(target_table)`; the function returns
`true` exactly when the `ValueError` is raised.  No schema compatibility
check appears anywhere in the constructor. -/
def init_raises (sourceExists targetExists : Bool) : Bool :=
  (!sourceExists) && targetExists

/-- A concrete source dataset: id 1 edited at time 2, id 3 edited at time 1. -/
def exSource : Table := [⟨1, 0, 2, []⟩, ⟨3, 0, 1, []⟩]

/-- A concrete target dataset: id 1 edited at time 1, id 4 edited at time 1. -/
def exTarget : Table := [⟨1, 0, 1, []⟩, ⟨4, 0, 1, []⟩]

/-- A freshly constructed updater bound to `exSource` and `exTarget`:
one update (id 1), one insert (id 3), one delete (id 4). -/
def exState : SyncState := ⟨exSource, exTarget, none⟩

/-- An updater whose source and target already agree, so its diff is empty. -/
def eqState : SyncState := ⟨[⟨1, 0, 1, []⟩], [⟨1, 0, 1, []⟩], none⟩

/- ### Dict lemmas -/

theorem mem_dictKeys_dictInsert (d : List (Nat × Nat)) (k v a : Nat) :
    a ∈ dictKeys (dictInsert d k v) ↔ a ∈ dictKeys d ∨ a = k := by
  unfold dictInsert dictKeys
  by_cases h : d.any (fun p => p.1 == k)
  · simp only [h, if_true, List.map_map, List.mem_map, Function.comp]
    constructor
    · rintro ⟨p, hp, hpa⟩
      by_cases hk : p.1 = k
      · right
        simp only [hk, beq_self_eq_true, if_true] at hpa
        exact hpa.symm
      · left
        exact ⟨p, hp, by simpa [hk] using hpa⟩
    · rintro (⟨p, hp, rfl⟩ | rfl)
      · exact ⟨p, hp, by by_cases hk : p.1 = k <;> simp [hk]⟩
      · obtain ⟨p, hp, hpk⟩ := List.any_eq_true.mp h
        rw [beq_iff_eq] at hpk
        exact ⟨p, hp, by simp [hpk]⟩
  · simp [h, List.mem_append]

theorem mem_dictKeys_foldl (l : List (Nat × Nat)) (init : List (Nat × Nat)) (a : Nat) :
    a ∈ dictKeys (l.foldl (fun d p => dictInsert d p.1 p.2) init) ↔
      a ∈ dictKeys init ∨ a ∈ dictKeys l := by
  induction l generalizing init with
  | nil => simp [dictKeys]
  | cons p l ih =>
      rw [List.foldl_cons, ih, mem_dictKeys_dictInsert]
      simp only [dictKeys, List.map_cons, List.mem_cons]
      tauto

theorem mem_dictKeys_gather (t : Table) (a : Nat) :
    a ∈ dictKeys (gather_rows t) ↔ a ∈ t.map Row.oid := by
  unfold gather_rows toDict
  rw [mem_dictKeys_foldl]
  simp [dictKeys, List.map_map, Function.comp]

/- ### Membership characterizations of the diff -/

theorem mem_updates_diff (new_rows old_rows : List (Nat × Nat)) (a : Nat) :
    a ∈ (get_table_diff new_rows old_rows).updates ↔
      a ∈ dictKeys new_rows ∧ a ∈ dictKeys old_rows ∧
        ∃ o n, old_rows.lookup a = some o ∧ new_rows.lookup a = some n ∧ o < n := by
  simp only [get_table_diff, List.mem_filter, Bool.and_eq_true, decide_eq_true_eq]
  constructor
  · rintro ⟨h1, h2, h3⟩
    refine ⟨h1, h2, ?_⟩
    cases ho : old_rows.lookup a with
    | none => rw [ho] at h3; simp at h3
    | some o =>
      cases hn : new_rows.lookup a with
      | none => rw [ho, hn] at h3; simp at h3
      | some n =>
        rw [ho, hn] at h3
        exact ⟨o, n, rfl, rfl, by simpa using h3⟩
  · rintro ⟨h1, h2, o, n, ho, hn, hlt⟩
    refine ⟨h1, h2, ?_⟩
    rw [ho, hn]
    simpa using hlt

theorem mem_inserts_diff (new_rows old_rows : List (Nat × Nat)) (a : Nat) :
    a ∈ (get_table_diff new_rows old_rows).inserts ↔
      a ∈ dictKeys new_rows ∧ a ∉ dictKeys old_rows := by
  simp [get_table_diff, List.mem_filter]

theorem mem_deletes_diff (new_rows old_rows : List (Nat × Nat)) (a : Nat) :
    a ∈ (get_table_diff new_rows old_rows).deletes ↔
      a ∈ dictKeys old_rows ∧ a ∉ dictKeys new_rows := by
  simp [get_table_diff, List.mem_filter]

/- ### Memoization lemmas -/

theorem table_diff_snd_memo (s : SyncState) :
    (table_diff s).2.memo = some (table_diff s).1 := by
  cases hm : s.memo <;> simp [table_diff, hm]

theorem table_diff_stable (s : SyncState) :
    table_diff ((table_diff s).2) = ((table_diff s).1, (table_diff s).2) := by
  cases hm : s.memo <;> simp [table_diff, hm]

theorem table_diff_snd_source (s : SyncState) : (table_diff s).2.source = s.source := by
  cases hm : s.memo <;> simp [table_diff, hm]

theorem table_diff_snd_clear (s : SyncState) :
    { (table_diff s).2 with memo := (none : Option Changes) } =
      (⟨s.source, s.target, none⟩ : SyncState) := by
  cases s with
  | mk src tgt m => cases m <;> simp [table_diff]

/- ### Selector lemmas -/

theorem sel_updates_snd (s : SyncState) : (sel_updates s).2 = (table_diff s).2 := by
  by_cases h : (table_diff s).1.updates.isEmpty <;> simp [sel_updates, h]

theorem sel_inserts_snd (s : SyncState) : (sel_inserts s).2 = (table_diff s).2 := by
  by_cases h : (table_diff s).1.inserts.isEmpty <;> simp [sel_inserts, h]

theorem sel_deletes_snd (s : SyncState) : (sel_deletes s).2 = (table_diff s).2 := by
  by_cases h : (table_diff s).1.deletes.isEmpty <;> simp [sel_deletes, h]

/- ### Phase lemmas: the source table is never written -/

theorem update_phase_source (f : Bool) (s : SyncState) :
    (stateAfter (update_phase f s)).source = s.source := by
  have hs : (sel_updates s).2.source = s.source := by
    rw [sel_updates_snd, table_diff_snd_source]
  unfold update_phase
  cases hu : (sel_updates s).1 with
  | none => simpa [stateAfter] using hs
  | some l =>
      by_cases he : l.isEmpty <;> by_cases hf : f <;>
        simp [stateAfter, he, hf, hs]

theorem insert_phase_source (f : Bool) (s : SyncState) :
    (stateAfter (insert_phase f s)).source = s.source := by
  have hs : (sel_inserts s).2.source = s.source := by
    rw [sel_inserts_snd, table_diff_snd_source]
  unfold insert_phase
  cases hu : (sel_inserts s).1 with
  | none => simpa [stateAfter] using hs
  | some rows =>
      by_cases he : rows.isEmpty <;> by_cases hf : f <;>
        simp [stateAfter, he, hf, hs]

theorem delete_phase_source (f : Bool) (s : SyncState) :
    (stateAfter (delete_phase f s)).source = s.source := by
  have hs : (sel_deletes s).2.source = s.source := by
    rw [sel_deletes_snd, table_diff_snd_source]
  unfold delete_phase
  cases hu : (sel_deletes s).1 with
  | none => simpa [stateAfter] using hs
  | some ids =>
      by_cases hf : f <;> simp [stateAfter, hf, hs]

/- ### Phase lemmas: each phase emits only its own kind of operation -/

theorem update_phase_ops (f : Bool) (s s1 : SyncState) (res : List Nat) (ops : List Op)
    (h : update_phase f s = .ok (s1, res, ops)) : ∀ o ∈ ops, o.isUpd = true := by
  unfold update_phase at h
  cases hu : (sel_updates s).1 with
  | none =>
      rw [hu] at h
      simp only [Except.ok.injEq, Prod.mk.injEq] at h
      obtain ⟨-, -, rfl⟩ := h
      simp
  | some l =>
      rw [hu] at h
      dsimp only at h
      by_cases he : l.isEmpty
      · rw [if_pos he] at h
        simp only [Except.ok.injEq, Prod.mk.injEq] at h
        obtain ⟨-, -, rfl⟩ := h
        simp
      · rw [if_neg he] at h
        by_cases hf : f
        · rw [if_pos hf] at h
          simp at h
        · rw [if_neg hf] at h
          simp only [Except.ok.injEq, Prod.mk.injEq] at h
          obtain ⟨-, -, rfl⟩ := h
          intro o ho
          simp only [List.mem_map] at ho
          obtain ⟨r, -, rfl⟩ := ho
          rfl

theorem insert_phase_ops (f : Bool) (s s1 : SyncState) (res : List Nat) (ops : List Op)
    (h : insert_phase f s = .ok (s1, res, ops)) : ∀ o ∈ ops, o.isIns = true := by
  unfold insert_phase at h
  cases hu : (sel_inserts s).1 with
  | none =>
      rw [hu] at h
      simp only [Except.ok.injEq, Prod.mk.injEq] at h
      obtain ⟨-, -, rfl⟩ := h
      simp
  | some rows =>
      rw [hu] at h
      dsimp only at h
      by_cases he : rows.isEmpty
      · rw [if_pos he] at h
        simp only [Except.ok.injEq, Prod.mk.injEq] at h
        obtain ⟨-, -, rfl⟩ := h
        simp
      · rw [if_neg he] at h
        by_cases hf : f
        · rw [if_pos hf] at h
          simp at h
        · rw [if_neg hf] at h
          simp only [Except.ok.injEq, Prod.mk.injEq] at h
          obtain ⟨-, -, rfl⟩ := h
          intro o ho
          simp only [List.mem_map] at ho
          obtain ⟨r, -, rfl⟩ := ho
          rfl

theorem delete_phase_ops (f : Bool) (s s1 : SyncState) (res : List Nat) (ops : List Op)
    (h : delete_phase f s = .ok (s1, res, ops)) : ∀ o ∈ ops, o.isDel = true := by
  unfold delete_phase at h
  cases hu : (sel_deletes s).1 with
  | none =>
      rw [hu] at h
      simp only [Except.ok.injEq, Prod.mk.injEq] at h
      obtain ⟨-, -, rfl⟩ := h
      simp
  | some ids =>
      rw [hu] at h
      dsimp only at h
      by_cases hf : f
      · rw [if_pos hf] at h
        simp at h
      · rw [if_neg hf] at h
        simp only [Except.ok.injEq, Prod.mk.injEq] at h
        obtain ⟨-, -, rfl⟩ := h
        intro o ho
        simp only [List.mem_map] at ho
        obtain ⟨r, -, rfl⟩ := ho
        rfl

/- ### Phase lemmas: a phase whose id set is empty is skipped entirely -/

theorem sel_updates_none (s : SyncState) (h : (table_diff s).1.updates = []) :
    sel_updates s = (none, (table_diff s).2) := by
  simp [sel_updates, h]

theorem sel_inserts_none (s : SyncState) (h : (table_diff s).1.inserts = []) :
    sel_inserts s = (none, (table_diff s).2) := by
  simp [sel_inserts, h]

theorem sel_deletes_none (s : SyncState) (h : (table_diff s).1.deletes = []) :
    sel_deletes s = (none, (table_diff s).2) := by
  simp [sel_deletes, h]

theorem update_phase_noop (f : Bool) (s : SyncState) (h : (table_diff s).1.updates = []) :
    update_phase f s = .ok ((table_diff s).2, [], []) := by
  rw [update_phase, sel_updates_none s h]

theorem insert_phase_noop (f : Bool) (s : SyncState) (h : (table_diff s).1.inserts = []) :
    insert_phase f s = .ok ((table_diff s).2, [], []) := by
  rw [insert_phase, sel_inserts_none s h]

theorem delete_phase_noop (f : Bool) (s : SyncState) (h : (table_diff s).1.deletes = []) :
    delete_phase f s = .ok ((table_diff s).2, [], []) := by
  rw [delete_phase, sel_deletes_none s h]

/- ### Claim theorems -/

/-- C1: for every pair of id-to-timestamp snapshots, `_get_table_diff` yields
exactly: updates = ids in both snapshots whose source timestamp is strictly
greater than the target timestamp (so equal timestamps are never updates),
inserts = source ids minus target ids, deletes = target ids minus source ids;
and on source `{1: t2, 2: t5, 3: t1}` against target `{1: t1, 2: t5, 4: t1}`
(timestamps `t1 < t2 < t5` rendered as `1 < 2 < 5`) it yields inserts `{3}`,
deletes `{4}` and updates `{1}`, with id 2 unchanged. -/
theorem c1_diff_contents :
    (∀ new_rows old_rows a, a ∈ (get_table_diff new_rows old_rows).updates ↔
        a ∈ dictKeys new_rows ∧ a ∈ dictKeys old_rows ∧
          ∃ o n, old_rows.lookup a = some o ∧ new_rows.lookup a = some n ∧ o < n) ∧
    (∀ new_rows old_rows a, a ∈ (get_table_diff new_rows old_rows).inserts ↔
        a ∈ dictKeys new_rows ∧ a ∉ dictKeys old_rows) ∧
    (∀ new_rows old_rows a, a ∈ (get_table_diff new_rows old_rows).deletes ↔
        a ∈ dictKeys old_rows ∧ a ∉ dictKeys new_rows) ∧
    table_diff_of [⟨1, 0, 2, [7]⟩, ⟨2, 0, 5, [8]⟩, ⟨3, 0, 1, [9]⟩]
        [⟨1, 0, 1, [4]⟩, ⟨2, 0, 5, [6]⟩, ⟨4, 0, 1, [2]⟩] =
      { updates := [1], inserts := [3], deletes := [4] } :=
  ⟨mem_updates_diff, mem_inserts_diff, mem_deletes_diff, by decide⟩

/-- C2: the constructor guard `not Exists(source_table) and Exists(target_table)`
parses as `(not Exists(source_table)) and Exists(target_table)`, so with an
existing source and a missing target no `ValueError` is raised, contradicting
the claim that construction fails whenever the target dataset does not exist
(and no schema compatibility check exists in the constructor at all). -/
theorem c2_no_error_on_missing_target : init_raises true false = false := rfl

/-- C3 (counterexample): an execution of `apply_changes` in which the update
phase raises terminates with the memoized diff still set, not reset to the
not-computed state. -/
theorem c3_counterexample :
    (stateAfter (apply_changes ⟨true, false, false⟩ exState)).memo ≠ none := by
  decide

/-- C3 (amended): for every execution of `apply_changes` that completes
without a phase raising, the memoized diff is reset to the not-computed
state; when a write phase raises, the reset on the final line is never
reached and the memoized diff is left in place. -/
theorem c3_memo_cleared_on_success (fail : FailSpec) (s s' : SyncState)
    (r : ApplyResult) (tr : List Op)
    (h : apply_changes fail s = .ok (s', r, tr)) : s'.memo = none := by
  unfold apply_changes at h
  rcases hU : update_phase fail.failUpdates s with sE | ⟨s1, updRes, ops1⟩ <;> rw [hU] at h
  · simp at h
  · dsimp only at h
    rcases hI : insert_phase fail.failInserts s1 with sE | ⟨s2, insRes, ops2⟩ <;> rw [hI] at h
    · simp at h
    · dsimp only at h
      rcases hD : delete_phase fail.failDeletes s2 with sE | ⟨s3, delRes, ops3⟩ <;> rw [hD] at h
      · simp at h
      · simp only [Except.ok.injEq, Prod.mk.injEq] at h
        rw [← h.1]

/-- C3 (witness for the amended claim): a successful run on a concrete
updater ends with the memoized diff reset. -/
theorem c3_witness :
    apply_changes ⟨false, false, false⟩ exState =
      .ok (⟨exSource, [⟨1, 0, 2, []⟩, ⟨3, 0, 1, []⟩], none⟩,
        { updates := [1], inserts := [3], deletes := [4] },
        [Op.upd 1, Op.ins 3, Op.del 4]) ∧
    (⟨exSource, [⟨1, 0, 2, []⟩, ⟨3, 0, 1, []⟩], none⟩ : SyncState).memo = none :=
  ⟨rfl, c3_memo_cleared_on_success ⟨false, false, false⟩ exState _ _ _ rfl⟩

/-- C4: for every pair of datasets the three id lists of the diff are
pairwise disjoint, and inserts, deletes and the ids present in both datasets
together cover exactly the union of the source ids and the target ids. -/
theorem c4_disjoint_cover (source target : Table) :
    (∀ a, a ∈ (table_diff_of source target).updates →
        a ∉ (table_diff_of source target).inserts) ∧
    (∀ a, a ∈ (table_diff_of source target).updates →
        a ∉ (table_diff_of source target).deletes) ∧
    (∀ a, a ∈ (table_diff_of source target).inserts →
        a ∉ (table_diff_of source target).deletes) ∧
    (∀ a, (a ∈ (table_diff_of source target).inserts ∨
        a ∈ (table_diff_of source target).deletes ∨
        (a ∈ source.map Row.oid ∧ a ∈ target.map Row.oid)) ↔
      (a ∈ source.map Row.oid ∨ a ∈ target.map Row.oid)) := by
  unfold table_diff_of
  refine ⟨?_, ?_, ?_, ?_⟩
  · intro a hu hi
    rw [mem_updates_diff] at hu
    rw [mem_inserts_diff] at hi
    exact hi.2 hu.2.1
  · intro a hu hd
    rw [mem_updates_diff] at hu
    rw [mem_deletes_diff] at hd
    exact hd.2 hu.1
  · intro a hi hd
    rw [mem_inserts_diff] at hi
    rw [mem_deletes_diff] at hd
    exact hi.2 hd.1
  · intro a
    rw [mem_inserts_diff, mem_deletes_diff, ← mem_dictKeys_gather source a,
      ← mem_dictKeys_gather target a]
    by_cases hs : a ∈ dictKeys (gather_rows source) <;>
      by_cases ht : a ∈ dictKeys (gather_rows target) <;> simp [hs, ht]

/-- C5: for a non-empty id list, the clause the updater builds — the single-id
equality path when the list has one element, the `IN` membership path
otherwise — selects exactly the rows whose id is in the list, so both
query-construction paths have the same per-id effect. -/
theorem c5_clause_selects_exactly (ids : List Nat) (oid : Nat) (h : ids ≠ []) :
    ((mkWhere ids).selects oid = true) ↔ oid ∈ ids := by
  match ids, h with
  | [x], _ => simp [mkWhere, WhereClause.selects]
  | x :: y :: rest, _ =>
    have hlen : ((x :: y :: rest).length == 1) = false := by
      simp only [List.length_cons, beq_eq_false_iff_ne, ne_eq]
      omega
    simp [mkWhere, hlen, WhereClause.selects]

/-- C5 (witness): the two-element list goes through the membership path and
selects id 3. -/
theorem c5_witness :
    ([3, 7] : List Nat) ≠ [] ∧ (((mkWhere [3, 7]).selects 3 = true) ↔ 3 ∈ [3, 7]) :=
  ⟨by decide, c5_clause_selects_exactly [3, 7] 3 (by decide)⟩

/-- C6: reading the `table_diff` property memoizes its result on first
access, and reading it again without intervening mutation returns the
identical `Changes` and leaves the state unchanged. -/
theorem c6_diff_memoized (s : SyncState) :
    (table_diff s).2.memo = some (table_diff s).1 ∧
    table_diff ((table_diff s).2) = ((table_diff s).1, (table_diff s).2) :=
  ⟨table_diff_snd_memo s, table_diff_stable s⟩

/-- C7: no execution of `apply_changes` — returning or raising in any write
phase — ever mutates the source dataset: all writes go to the target. -/
theorem c7_source_never_mutated (fail : FailSpec) (s : SyncState) :
    (stateAfter (apply_changes fail s)).source = s.source := by
  unfold apply_changes
  have h1 := update_phase_source fail.failUpdates s
  rcases hU : update_phase fail.failUpdates s with sE | ⟨s1, updRes, ops1⟩ <;>
    rw [hU] at h1 <;> simp only [stateAfter] at h1 <;> dsimp only
  · simp only [stateAfter]
    exact h1
  · have h2 := insert_phase_source fail.failInserts s1
    rcases hI : insert_phase fail.failInserts s1 with sE | ⟨s2, insRes, ops2⟩ <;>
      rw [hI] at h2 <;> simp only [stateAfter] at h2 <;> dsimp only
    · simp only [stateAfter]
      rw [h2]
      exact h1
    · have h3 := delete_phase_source fail.failDeletes s2
      rcases hD : delete_phase fail.failDeletes s2 with sE | ⟨s3, delRes, ops3⟩ <;>
        rw [hD] at h3 <;> simp only [stateAfter] at h3 <;> dsimp only
      · simp only [stateAfter]
        rw [h3, h2]
        exact h1
      · show s3.source = s.source
        rw [h3, h2]
        exact h1

/-- C8: in every completed execution of `apply_changes` the trace of write
operations splits as all update writes, followed by all insert writes,
followed by all delete writes. -/
theorem c8_phases_in_order (fail : FailSpec) (s s' : SyncState)
    (r : ApplyResult) (tr : List Op)
    (h : apply_changes fail s = .ok (s', r, tr)) :
    ∃ ou oi od, tr = ou ++ oi ++ od ∧ (∀ o ∈ ou, o.isUpd = true) ∧
      (∀ o ∈ oi, o.isIns = true) ∧ (∀ o ∈ od, o.isDel = true) := by
  unfold apply_changes at h
  rcases hU : update_phase fail.failUpdates s with sE | ⟨s1, updRes, ops1⟩ <;> rw [hU] at h
  · simp at h
  · dsimp only at h
    rcases hI : insert_phase fail.failInserts s1 with sE | ⟨s2, insRes, ops2⟩ <;> rw [hI] at h
    · simp at h
    · dsimp only at h
      rcases hD : delete_phase fail.failDeletes s2 with sE | ⟨s3, delRes, ops3⟩ <;> rw [hD] at h
      · simp at h
      · simp only [Except.ok.injEq, Prod.mk.injEq] at h
        obtain ⟨-, -, rfl⟩ := h
        exact ⟨ops1, ops2, ops3, rfl, update_phase_ops _ _ _ _ _ hU,
          insert_phase_ops _ _ _ _ _ hI, delete_phase_ops _ _ _ _ _ hD⟩

/-- C8 (witness): the concrete run on `exState` produces the trace
`[upd 1, ins 3, del 4]`, which decomposes as updates, then inserts, then
deletes. -/
theorem c8_witness :
    ∃ ou oi od, ([Op.upd 1, Op.ins 3, Op.del 4] : List Op) = ou ++ oi ++ od ∧
      (∀ o ∈ ou, o.isUpd = true) ∧ (∀ o ∈ oi, o.isIns = true) ∧
      (∀ o ∈ od, o.isDel = true) :=
  c8_phases_in_order ⟨false, false, false⟩ exState
    ⟨exSource, [⟨1, 0, 2, []⟩, ⟨3, 0, 1, []⟩], none⟩
    { updates := [1], inserts := [3], deletes := [4] }
    [Op.upd 1, Op.ins 3, Op.del 4] rfl

/-- C9: when the computed diff is empty in all three components, every
execution of `apply_changes` leaves the target exactly as it was, performs no
write, and returns empty `updates`, `inserts` and `deletes` lists (only the
memoized diff is reset). -/
theorem c9_empty_diff_noop (fail : FailSpec) (s : SyncState)
    (h : (table_diff s).1 = { updates := [], inserts := [], deletes := [] }) :
    apply_changes fail s =
      .ok (⟨s.source, s.target, none⟩, { updates := [], inserts := [], deletes := [] }, []) := by
  have hu : (table_diff s).1.updates = [] := by rw [h]
  have hi : (table_diff s).1.inserts = [] := by rw [h]
  have hd : (table_diff s).1.deletes = [] := by rw [h]
  have hst := table_diff_stable s
  have hU := update_phase_noop fail.failUpdates s hu
  have hI := insert_phase_noop fail.failInserts ((table_diff s).2) (by rw [hst]; exact hi)
  rw [hst] at hI
  have hD := delete_phase_noop fail.failDeletes ((table_diff s).2) (by rw [hst]; exact hd)
  rw [hst] at hD
  rw [apply_changes, hU]
  dsimp only
  rw [hI]
  dsimp only
  rw [hD]
  dsimp only
  rw [table_diff_snd_clear]
  rfl

/-- C9 (witness): on an updater whose source and target already agree the
diff is empty and `apply_changes` is a no-op even with every phase set to
fail (no phase body ever runs). -/
theorem c9_witness :
    (table_diff eqState).1 = { updates := [], inserts := [], deletes := [] } ∧
    apply_changes ⟨true, true, true⟩ eqState =
      .ok (⟨eqState.source, eqState.target, none⟩,
        { updates := [], inserts := [], deletes := [] }, []) :=
  ⟨rfl, c9_empty_diff_noop ⟨true, true, true⟩ eqState rfl⟩

/-- C10: the diff depends only on the gathered id-to-timestamp snapshots: two
pairs of datasets whose snapshots agree — whatever their geometry or other
attribute values — produce the same `Changes`. -/
theorem c10_snapshot_determined (src1 src2 tgt1 tgt2 : Table)
    (hs : gather_rows src1 = gather_rows src2)
    (ht : gather_rows tgt1 = gather_rows tgt2) :
    table_diff_of src1 tgt1 = table_diff_of src2 tgt2 := by
  unfold table_diff_of
  rw [hs, ht]

/-- C10 (witness): datasets differing only in geometry and attribute payloads
gather to the same snapshots and get the same diff. -/
theorem c10_witness :
    gather_rows [⟨1, 3, 5, [9]⟩] = gather_rows [⟨1, 8, 5, [2, 2]⟩] ∧
    gather_rows [⟨2, 1, 4, []⟩] = gather_rows [⟨2, 7, 4, [5]⟩] ∧
    table_diff_of [⟨1, 3, 5, [9]⟩] [⟨2, 1, 4, []⟩] =
      table_diff_of [⟨1, 8, 5, [2, 2]⟩] [⟨2, 7, 4, [5]⟩] :=
  ⟨rfl, rfl, c10_snapshot_determined _ _ _ _ rfl rfl⟩

end SyncingChanges
